import Mathlib

/-!
# Agent-Negotiation-System: verification of the control core

Shallow embedding of the negotiation core of the repository:

* `05_agents/buyer.py` / `05_agents/seller.py` — the deterministic decision
  strategies `buyer_strategy` and `seller_strategy`;
* `06_orchestration/graph.py` — the orchestration state (`NegotiationState`),
  the node functions `buyer_node` / `seller_node`, the `router`, the fallback
  driver `_run_simple_loop` and the entry point `run_negotiation`;
* `04_fsm/state_machine.py` — the `NegotiationFSM` termination state machine;
* `07_coordination/policy.py` — the `CoordinationPolicy` validators.

Python floats are modelled as rationals (`ℚ`); `round(x, 2)` is modelled as
rounding to the nearest multiple of `1/100` (`round2` below, ties upward —
the Python implementation resolves the vanishingly rare half-cent ties on the
underlying binary float; no statement proved here depends on a tie).
Python's unbounded non-negative turn counters are modelled as `ℕ`.
The human-readable `"message"` strings carried alongside prices in the Python
dicts are not reproduced; every price/type field is.
-/

/-- `round(x, 2)` from Python, on rationals: round to the nearest hundredth. -/
def round2 (q : ℚ) : ℚ := (round (q * 100) : ℚ) / 100

/-- The two negotiating parties. -/
inductive Party where
  | buyer
  | seller
deriving DecidableEq, Repr

/-- A strategy response: the `{"type": ..., "price": ...}` dict returned by
`buyer_strategy` / `seller_strategy`.  `offer` and `accept` carry a price,
`counter` additionally carries the `original_price` echo of the buyer's
offer, `reject` carries only a reason (elided, a display string). -/
inductive AgentResponse where
  | offer (price : ℚ)
  | accept (price : ℚ)
  | counter (price : ℚ) (original_price : ℚ)
  | reject
deriving DecidableEq, Repr

/-- One entry of the orchestration message log:
`{"turn": ..., "agent": ..., "message": response}`. -/
structure LogEntry where
  turn : ℕ
  agent : Party
  message : AgentResponse
deriving DecidableEq, Repr

/-- The graph state `NegotiationState` (TypedDict) of
`06_orchestration/graph.py`. -/
structure NegotiationState where
  buyer_max_price : ℚ
  seller_min_price : ℚ
  seller_asking_price : ℚ
  max_turns : ℕ
  current_turn : ℕ
  whose_turn : Party
  current_offer : ℚ
  previous_buyer_offer : Option ℚ
  previous_seller_counter : Option ℚ
  agreed : Bool
  final_price : Option ℚ
  failure_reason : Option String
  messages : List LogEntry
deriving DecidableEq, Repr

/-- `buyer_strategy` of `05_agents/buyer.py` (pure decision logic).
`turn ≥ max_turns - 1` uses truncating subtraction, matching the Python
comparison for the turn values `0 ≤ turn` that actually occur. -/
def buyer_strategy (current_offer max_price : ℚ) (turn max_turns : ℕ)
    (previous_offer : Option ℚ) : AgentResponse :=
  if current_offer ≤ max_price then
    .accept current_offer
  else
    let new_offer :=
      match previous_offer with
      | none => max_price * (60 / 100)
      | some p => p * (108 / 100)
    let new_offer := min new_offer max_price
    let new_offer := round2 new_offer
    if max_turns - 1 ≤ turn ∧ max_price * (95 / 100) ≤ new_offer then
      .offer max_price
    else
      .offer new_offer

/-- `seller_strategy` of `05_agents/seller.py`, with no MCP server attached
(the orchestration nodes never pass one, so `effective_min = min_price`). -/
def seller_strategy (buyer_offer min_price asking_price : ℚ)
    (turn max_turns : ℕ) (previous_counter : Option ℚ) : AgentResponse :=
  if min_price ≤ buyer_offer then
    .accept buyer_offer
  else
    let new_counter :=
      match previous_counter with
      | none => asking_price * (98 / 100)
      | some p => p - (p - buyer_offer) * (3 / 10)
    let new_counter := max new_counter min_price
    let new_counter := round2 new_counter
    if max_turns - 2 ≤ turn ∧ buyer_offer < min_price * (8 / 10) then
      .reject
    else
      .counter new_counter buyer_offer

/-- `buyer_node` of `06_orchestration/graph.py`: run the buyer strategy and
apply the returned update dict to the state. -/
def buyer_node (state : NegotiationState) : NegotiationState :=
  let response := buyer_strategy state.current_offer state.buyer_max_price
    state.current_turn state.max_turns state.previous_buyer_offer
  let message : LogEntry := ⟨state.current_turn, .buyer, response⟩
  let state := { state with
    messages := state.messages ++ [message]
    whose_turn := .seller }
  match response with
  | .offer p => { state with previous_buyer_offer := some p }
  | .accept p => { state with agreed := true, final_price := some p }
  | .reject => { state with failure_reason := some "Buyer rejected" }
  | .counter _ _ => state

/-- `seller_node` of `06_orchestration/graph.py`.  The buyer's last offer is
read as `state.get("previous_buyer_offer", seller_asking_price)`; the node is
only ever reached after a buyer offer, so the default is inert. -/
def seller_node (state : NegotiationState) : NegotiationState :=
  let buyer_offer := state.previous_buyer_offer.getD state.seller_asking_price
  let response := seller_strategy buyer_offer state.seller_min_price
    state.seller_asking_price state.current_turn state.max_turns
    state.previous_seller_counter
  let message : LogEntry := ⟨state.current_turn, .seller, response⟩
  let state := { state with
    messages := state.messages ++ [message]
    whose_turn := .buyer
    current_turn := state.current_turn + 1 }
  match response with
  | .counter p _ =>
      { state with current_offer := p, previous_seller_counter := some p }
  | .accept p => { state with agreed := true, final_price := some p }
  | .reject => { state with failure_reason := some "Seller rejected" }
  | .offer _ => state

/-- `router` of `06_orchestration/graph.py`: `none` is the `"end"` target,
`some party` the node to run next. -/
def router (state : NegotiationState) : Option Party :=
  if state.agreed then none
  else if state.failure_reason.isSome then none
  else if state.max_turns ≤ state.current_turn then none
  else some state.whose_turn

/-- `_run_simple_loop` of `06_orchestration/graph.py`.  The Python `while
True` loop is given explicit fuel; `run_negotiation` supplies enough fuel
for the loop to reach its break condition (proved below). -/
def _run_simple_loop (fuel : ℕ) (state : NegotiationState) : NegotiationState :=
  match fuel with
  | 0 => state
  | fuel + 1 =>
    if state.agreed || state.failure_reason.isSome then state
    else if state.max_turns ≤ state.current_turn then
      { state with failure_reason := some "Max turns exceeded" }
    else
      match state.whose_turn with
      | .buyer => _run_simple_loop fuel (buyer_node state)
      | .seller => _run_simple_loop fuel (seller_node state)

/-- Execution of the compiled LangGraph graph built by
`create_negotiation_graph`: the entry node `buyer` runs first, then the
conditional edges repeatedly evaluate `router` and run the node it names
until it yields `"end"`.  Fuel-indexed like `_run_simple_loop`. -/
def graph_execute (fuel : ℕ) (state : NegotiationState) : NegotiationState :=
  match fuel with
  | 0 => state
  | fuel + 1 =>
    match router state with
    | none => state
    | some .buyer => graph_execute fuel (buyer_node state)
    | some .seller => graph_execute fuel (seller_node state)

/-- The initial state built by `run_negotiation`. -/
def initial_state (buyer_max_price seller_min_price seller_asking_price : ℚ)
    (max_turns : ℕ) : NegotiationState where
  buyer_max_price := buyer_max_price
  seller_min_price := seller_min_price
  seller_asking_price := seller_asking_price
  max_turns := max_turns
  current_turn := 0
  whose_turn := .buyer
  current_offer := seller_asking_price
  previous_buyer_offer := none
  previous_seller_counter := none
  agreed := false
  final_price := none
  failure_reason := none
  messages := []

/-- The result record returned by `run_negotiation`. -/
structure NegotiationResult where
  agreed : Bool
  final_price : Option ℚ
  turns : ℕ
  messages : List LogEntry
deriving DecidableEq, Repr

/-- Project a final graph state onto the result record `run_negotiation`
returns (`failure_reason` is not part of the returned record). -/
def result_of (state : NegotiationState) : NegotiationResult :=
  ⟨state.agreed, state.final_price, state.current_turn, state.messages⟩

/-- Fuel amply covering the loop: a buyer step and a seller step per round,
`max_turns` rounds, one closing check. -/
def loop_fuel (max_turns : ℕ) : ℕ := 2 * max_turns + 2

/-- `run_negotiation` of `06_orchestration/graph.py`, driven by the in-repo
fallback loop `_run_simple_loop`. -/
def run_negotiation (buyer_max_price seller_min_price seller_asking_price : ℚ)
    (max_turns : ℕ) : NegotiationResult :=
  result_of (_run_simple_loop (loop_fuel max_turns)
    (initial_state buyer_max_price seller_min_price seller_asking_price max_turns))

/-- `run_negotiation`, driven by the LangGraph execution engine instead of
the fallback loop: `graph.invoke` runs the entry node `buyer`
unconditionally, then `graph_execute` follows the conditional edges. -/
def run_negotiation_graph
    (buyer_max_price seller_min_price seller_asking_price : ℚ)
    (max_turns : ℕ) : NegotiationResult :=
  result_of (graph_execute (loop_fuel max_turns)
    (buyer_node
      (initial_state buyer_max_price seller_min_price seller_asking_price max_turns)))

/-- Termination measure of the orchestration loop: two node executions per
remaining round, plus one for the pending buyer half-round. -/
def loop_measure (s : NegotiationState) : ℕ :=
  2 * (s.max_turns - s.current_turn) +
    (match s.whose_turn with | .buyer => 1 | .seller => 0)

/-! ## The termination FSM of `04_fsm/state_machine.py` -/

/-- `NegotiationState` enum of the FSM module (named `FSMState` here; the
name `NegotiationState` is taken by the orchestration graph state above). -/
inductive FSMState where
  | idle
  | negotiating
  | agreed
  | failed
deriving DecidableEq, Repr

/-- `FailureReason` enum of `04_fsm/state_machine.py`. -/
inductive FailureReason where
  | max_turns_exceeded
  | rejected_by_buyer
  | rejected_by_seller
  | policy_violation
  | invalid_transition
deriving DecidableEq, Repr

/-- `FSMContext` dataclass.  `turn_count` only ever grows from 0, so `ℕ`
models the Python `int`. -/
structure FSMContext where
  turn_count : ℕ
  max_turns : ℕ
  last_offer : Option ℚ
  agreed_price : Option ℚ
  failure_reason : Option FailureReason
deriving DecidableEq, Repr

/-- `NegotiationFSM`: current state plus context. -/
structure NegotiationFSM where
  state : FSMState
  context : FSMContext
deriving DecidableEq, Repr

/-- `NegotiationFSM.__init__(max_turns)`. -/
def NegotiationFSM.init (max_turns : ℕ) : NegotiationFSM :=
  ⟨.idle, ⟨0, max_turns, none, none, none⟩⟩

/-- `is_active` property. -/
def NegotiationFSM.is_active (fsm : NegotiationFSM) : Bool :=
  fsm.state = .negotiating

/-- `is_terminal()`. -/
def NegotiationFSM.is_terminal (fsm : NegotiationFSM) : Bool :=
  fsm.state = .agreed || fsm.state = .failed

/-- `start()`: mutating Python methods are modelled as returning the
updated machine next to their Python return value. -/
def NegotiationFSM.start (fsm : NegotiationFSM) : Bool × NegotiationFSM :=
  if fsm.state ≠ FSMState.idle then (false, fsm)
  else (true, { fsm with state := .negotiating })

/-- `record_turn()` (returns `None` in Python). -/
def NegotiationFSM.record_turn (fsm : NegotiationFSM) : NegotiationFSM :=
  if fsm.is_active then
    { fsm with context := { fsm.context with turn_count := fsm.context.turn_count + 1 } }
  else fsm

/-- `transition_to_agreed(final_price=None)`: the price argument is
optional in Python and is recorded as given, `None` included. -/
def NegotiationFSM.transition_to_agreed (fsm : NegotiationFSM)
    (final_price : Option ℚ) : Bool × NegotiationFSM :=
  if !fsm.is_active then (false, fsm)
  else
    (true, { fsm with
      state := .agreed
      context := { fsm.context with agreed_price := final_price } })

set_option linter.unusedVariables false in
/-- `transition_to_failed(reason=None)`: the Python body ignores `reason`
and always records `FailureReason.REJECTED_BY_BUYER`. -/
def NegotiationFSM.transition_to_failed (fsm : NegotiationFSM)
    (reason : Option String) : Bool × NegotiationFSM :=
  if !fsm.is_active then (false, fsm)
  else
    (true, { fsm with
      state := .failed
      context := { fsm.context with failure_reason := some .rejected_by_buyer } })

/-- `process_turn()`. -/
def NegotiationFSM.process_turn (fsm : NegotiationFSM) : Bool × NegotiationFSM :=
  if !fsm.is_active then (false, fsm)
  else
    let fsm := { fsm with
      context := { fsm.context with turn_count := fsm.context.turn_count + 1 } }
    if fsm.context.max_turns ≤ fsm.context.turn_count then
      (false, { fsm with
        state := .failed
        context := { fsm.context with failure_reason := some .max_turns_exceeded } })
    else (true, fsm)

/-- `accept(price)`. -/
def NegotiationFSM.accept (fsm : NegotiationFSM) (price : ℚ) : Bool × NegotiationFSM :=
  if !fsm.is_active then (false, fsm)
  else
    (true, { fsm with
      state := .agreed
      context := { fsm.context with agreed_price := some price } })

/-- `reject(reason, by_buyer=True)` (the `reason` display string is not
recorded by the Python body either). -/
def NegotiationFSM.reject (fsm : NegotiationFSM) (by_buyer : Bool) :
    Bool × NegotiationFSM :=
  if !fsm.is_active then (false, fsm)
  else
    let r : FailureReason :=
      if by_buyer then .rejected_by_buyer else .rejected_by_seller
    (true, { fsm with
      state := .failed
      context := { fsm.context with failure_reason := some r } })

/-- `check_invariants()`: `true` when no assertion in the Python body
fires (`turn_count ≥ 0` is trivial on `ℕ`; `AGREED` needs a price;
`FAILED` needs a reason). -/
def NegotiationFSM.check_invariants (fsm : NegotiationFSM) : Bool :=
  (fsm.state ≠ FSMState.agreed || fsm.context.agreed_price.isSome) &&
  (fsm.state ≠ FSMState.failed || fsm.context.failure_reason.isSome)

/-! ## The coordination policy of `07_coordination/policy.py` -/

/-- `PolicyViolation` enum. -/
inductive PolicyViolation where
  | wrong_turn
  | invalid_message_type
  | price_increased
  | price_decreased
  | below_minimum
  | above_maximum
  | negotiation_ended
deriving DecidableEq, Repr

/-- `PolicyResult` dataclass (`reason`, a display string assembled from the
prices, is not modelled). -/
structure PolicyResult where
  allowed : Bool
  violation : Option PolicyViolation
deriving DecidableEq, Repr

/-- `CoordinationPolicy` configuration (defaults 450 / 350 / true). -/
structure CoordinationPolicy where
  buyer_max_price : ℚ
  seller_min_price : ℚ
  require_price_progress : Bool
deriving DecidableEq, Repr

/-- `validate_buyer_offer(price, previous_offer=None)`. -/
def CoordinationPolicy.validate_buyer_offer (pol : CoordinationPolicy)
    (price : ℚ) (previous_offer : Option ℚ) : PolicyResult :=
  if pol.buyer_max_price < price then ⟨false, some .above_maximum⟩
  else if pol.require_price_progress then
    match previous_offer with
    | some prev => if price < prev then ⟨false, some .price_decreased⟩ else ⟨true, none⟩
    | none => ⟨true, none⟩
  else ⟨true, none⟩

/-- `validate_seller_counter(price, previous_counter=None)`. -/
def CoordinationPolicy.validate_seller_counter (pol : CoordinationPolicy)
    (price : ℚ) (previous_counter : Option ℚ) : PolicyResult :=
  if price < pol.seller_min_price then ⟨false, some .below_minimum⟩
  else if pol.require_price_progress then
    match previous_counter with
    | some prev => if prev < price then ⟨false, some .price_increased⟩ else ⟨true, none⟩
    | none => ⟨true, none⟩
  else ⟨true, none⟩

/-- Loop invariant for the agreed-price range property: configuration
pinned, any agreed price already in range, current offer at or above the
seller minimum, recorded buyer offers within budget, and a seller turn
only after a buyer action. -/
def range_inv (bmax smin : ℚ) (s : NegotiationState) : Prop :=
  s.buyer_max_price = bmax ∧ s.seller_min_price = smin ∧
  (s.agreed = true → ∃ q, s.final_price = some q ∧ smin ≤ q ∧ q ≤ bmax) ∧
  smin ≤ s.current_offer ∧
  (∀ q, s.previous_buyer_offer = some q → q ≤ bmax) ∧
  (s.whose_turn = Party.seller →
    s.agreed = true ∨ s.previous_buyer_offer.isSome = true)

/-- Loop invariant for the no-agreement property when the seller minimum
exceeds the buyer budget by more than the half-cent rounding slack. -/
def no_zopa_inv (bmax smin : ℚ) (s : NegotiationState) : Prop :=
  s.buyer_max_price = bmax ∧ s.seller_min_price = smin ∧
  s.agreed = false ∧
  bmax < s.current_offer ∧
  (∀ q, s.previous_buyer_offer = some q → q ≤ bmax + 1 / 200) ∧
  (s.whose_turn = Party.seller → s.previous_buyer_offer.isSome = true)

/-- Prices of the buyer's `offer` messages, in log order. -/
def buyer_offer_prices (msgs : List LogEntry) : List ℚ :=
  msgs.filterMap (fun m =>
    match m.agent, m.message with
    | Party.buyer, .offer p => some p
    | _, _ => none)

/-- Prices of the seller's `counter` messages, in log order. -/
def seller_counter_prices (msgs : List LogEntry) : List ℚ :=
  msgs.filterMap (fun m =>
    match m.agent, m.message with
    | Party.seller, .counter p _ => some p
    | _, _ => none)

/-- Loop invariant for monotone concessions: configuration pinned, the
recorded offer/counter price sequences are monotone, and each party's
`previous_*` field is the (whole-cent, in-bounds) last recorded price. -/
def monotone_inv (bmax smin : ℚ) (s : NegotiationState) : Prop :=
  s.buyer_max_price = bmax ∧ s.seller_min_price = smin ∧
  List.Chain' (· ≤ ·) (buyer_offer_prices s.messages) ∧
  List.Chain' (· ≥ ·) (seller_counter_prices s.messages) ∧
  (∀ p, s.previous_buyer_offer = some p →
    0 ≤ p ∧ p ≤ bmax ∧ round2 p = p ∧
      (buyer_offer_prices s.messages).getLast? = some p) ∧
  (s.previous_buyer_offer = none → buyer_offer_prices s.messages = []) ∧
  (∀ c, s.previous_seller_counter = some c →
    smin ≤ c ∧ round2 c = c ∧
      (seller_counter_prices s.messages).getLast? = some c) ∧
  (s.previous_seller_counter = none → seller_counter_prices s.messages = [])

/-! ## Arithmetic facts about `round2` -/

theorem round2_mono {a b : ℚ} (h : a ≤ b) : round2 a ≤ round2 b := by
  unfold round2
  have h1 : round (a * 100) ≤ round (b * 100) := by
    rw [round_eq, round_eq]
    exact Int.floor_mono (by linarith)
  have h2 : ((round (a * 100) : ℤ) : ℚ) ≤ ((round (b * 100) : ℤ) : ℚ) := by
    exact_mod_cast h1
  linarith

theorem round2_intCast (n : ℤ) : round2 ((n : ℚ) / 100) = (n : ℚ) / 100 := by
  unfold round2
  rw [div_mul_cancel₀ _ (by norm_num : (100 : ℚ) ≠ 0), round_intCast]

theorem round2_round2 (q : ℚ) : round2 (round2 q) = round2 q :=
  round2_intCast (round (q * 100))

theorem round2_zero : round2 0 = 0 := by
  unfold round2
  norm_num

theorem round2_nonneg {q : ℚ} (h : 0 ≤ q) : 0 ≤ round2 q := by
  have := round2_mono h
  rwa [round2_zero] at this

/-- `round2` never overshoots its argument by a half-cent or more. -/
theorem round2_le_add_half_cent (q : ℚ) : round2 q ≤ q + 1 / 200 := by
  unfold round2
  have hc : ((round (q * 100) : ℤ) : ℚ) ≤ q * 100 + 1 / 2 := round_le_add_half (q * 100)
  linarith

/-- `round2` never undershoots its argument by a half-cent or more. -/
theorem sub_half_cent_le_round2 (q : ℚ) : q - 1 / 200 ≤ round2 q := by
  unfold round2
  have h := abs_sub_round (q * 100)
  have hc : q * 100 - ((round (q * 100) : ℤ) : ℚ) ≤ 1 / 2 := (abs_le.mp h).2
  linarith

/-- Rounding below a fixpoint of `round2` stays below it. -/
theorem round2_le_of_le {a b : ℚ} (h : a ≤ b) (hb : round2 b = b) :
    round2 a ≤ b := hb ▸ round2_mono h

/-- Rounding above a fixpoint of `round2` stays above it. -/
theorem le_round2_of_le {a b : ℚ} (h : a ≤ b) (ha : round2 a = a) :
    a ≤ round2 b := ha ▸ round2_mono h

/-! ## Structural facts about the nodes and the loop -/

theorem buyer_node_fields (s : NegotiationState) :
    (buyer_node s).buyer_max_price = s.buyer_max_price ∧
    (buyer_node s).seller_min_price = s.seller_min_price ∧
    (buyer_node s).seller_asking_price = s.seller_asking_price ∧
    (buyer_node s).max_turns = s.max_turns ∧
    (buyer_node s).current_turn = s.current_turn ∧
    (buyer_node s).whose_turn = Party.seller := by
  cases h : buyer_strategy s.current_offer s.buyer_max_price
      s.current_turn s.max_turns s.previous_buyer_offer <;>
    simp [buyer_node, h]

theorem seller_node_fields (s : NegotiationState) :
    (seller_node s).buyer_max_price = s.buyer_max_price ∧
    (seller_node s).seller_min_price = s.seller_min_price ∧
    (seller_node s).seller_asking_price = s.seller_asking_price ∧
    (seller_node s).max_turns = s.max_turns ∧
    (seller_node s).current_turn = s.current_turn + 1 ∧
    (seller_node s).whose_turn = Party.buyer := by
  cases h : seller_strategy (s.previous_buyer_offer.getD s.seller_asking_price)
      s.seller_min_price s.seller_asking_price s.current_turn s.max_turns
      s.previous_seller_counter <;>
    simp [seller_node, h]

/-- Any property preserved by both nodes (under the loop's continuation
conditions) and by the max-turns failure stamp is an invariant of
`_run_simple_loop`. -/
theorem _run_simple_loop_invariant (P : NegotiationState → Prop)
    (hb : ∀ s, P s → s.agreed = false → s.failure_reason = none →
      s.current_turn < s.max_turns → s.whose_turn = Party.buyer →
      P (buyer_node s))
    (hs : ∀ s, P s → s.agreed = false → s.failure_reason = none →
      s.current_turn < s.max_turns → s.whose_turn = Party.seller →
      P (seller_node s))
    (hf : ∀ s, P s → P { s with failure_reason := some "Max turns exceeded" }) :
    ∀ fuel s, P s → P (_run_simple_loop fuel s) := by
  intro fuel
  induction fuel with
  | zero => exact fun s hP => hP
  | succ n ih =>
    intro s hP
    rw [_run_simple_loop]
    by_cases h1 : (s.agreed || s.failure_reason.isSome) = true
    · simp only [h1, if_true]
      exact hP
    · simp only [h1, if_false]
      have hag : s.agreed = false := by
        cases hx : s.agreed <;> simp [hx] at h1 ⊢
      have hfr : s.failure_reason = none := by
        cases hx : s.failure_reason <;> simp [hx, hag] at h1 ⊢
      by_cases h2 : s.max_turns ≤ s.current_turn
      · simp only [h2, if_true]
        exact hf s hP
      · simp only [h2, if_false]
        have hlt : s.current_turn < s.max_turns := Nat.lt_of_not_le h2
        cases hw : s.whose_turn
        · exact ih _ (hb s hP hag hfr hlt hw)
        · exact ih _ (hs s hP hag hfr hlt hw)

/-- A buyer step consumes one unit of the loop measure. -/
theorem loop_measure_buyer_node (s : NegotiationState)
    (hw : s.whose_turn = Party.buyer) :
    loop_measure (buyer_node s) + 1 = loop_measure s := by
  have hfs := buyer_node_fields s
  unfold loop_measure
  rw [hfs.2.2.2.1, hfs.2.2.2.2.1, hfs.2.2.2.2.2, hw]
  simp

/-- A seller step (taken while turns remain) consumes one unit of the loop
measure. -/
theorem loop_measure_seller_node (s : NegotiationState)
    (hw : s.whose_turn = Party.seller) (hlt : s.current_turn < s.max_turns) :
    loop_measure (seller_node s) + 1 = loop_measure s := by
  have hfs := seller_node_fields s
  unfold loop_measure
  rw [hfs.2.2.2.1, hfs.2.2.2.2.1, hfs.2.2.2.2.2, hw]
  simp
  omega

/-- With fuel exceeding the measure, the loop reaches its break condition:
the final state is agreed or carries a failure reason. -/
theorem _run_simple_loop_breaks :
    ∀ fuel s, loop_measure s < fuel →
      (_run_simple_loop fuel s).agreed = true ∨
        (_run_simple_loop fuel s).failure_reason ≠ none := by
  intro fuel
  induction fuel with
  | zero => intro s h; omega
  | succ n ih =>
    intro s h
    rw [_run_simple_loop]
    by_cases h1 : (s.agreed || s.failure_reason.isSome) = true
    · simp only [h1, if_true]
      rcases Bool.or_eq_true_iff.mp h1 with hx | hx
      · exact Or.inl hx
      · exact Or.inr (Option.isSome_iff_ne_none.mp hx)
    · simp only [h1, if_false]
      by_cases h2 : s.max_turns ≤ s.current_turn
      · simp only [h2, if_true]
        exact Or.inr (by simp)
      · simp only [h2, if_false]
        have hlt : s.current_turn < s.max_turns := Nat.lt_of_not_le h2
        cases hw : s.whose_turn
        · exact ih _ (by have := loop_measure_buyer_node s hw; omega)
        · exact ih _ (by have := loop_measure_seller_node s hw hlt; omega)

/-- Past the measure, extra fuel does not change the loop's result. -/
theorem _run_simple_loop_fuel_stable :
    ∀ fuel fuel' s, loop_measure s < fuel → fuel ≤ fuel' →
      _run_simple_loop fuel' s = _run_simple_loop fuel s := by
  intro fuel
  induction fuel with
  | zero => intro fuel' s h; omega
  | succ n ih =>
    intro fuel' s h hle
    obtain ⟨m, rfl⟩ : ∃ m, fuel' = m + 1 := ⟨fuel' - 1, by omega⟩
    rw [_run_simple_loop]
    conv_rhs => rw [_run_simple_loop]
    by_cases h1 : (s.agreed || s.failure_reason.isSome) = true
    · simp only [h1, if_true]
    · simp only [h1, if_false]
      by_cases h2 : s.max_turns ≤ s.current_turn
      · simp only [h2, if_true]
      · simp only [h2, if_false]
        have hlt : s.current_turn < s.max_turns := Nat.lt_of_not_le h2
        cases hw : s.whose_turn
        · exact ih m _ (by have := loop_measure_buyer_node s hw; omega) (by omega)
        · exact ih m _ (by have := loop_measure_seller_node s hw hlt; omega) (by omega)

/-- The graph engine and the simple loop agree, state by state, on
everything `run_negotiation` returns: the max-turns stop differs only in
the `failure_reason` stamp, which the result record does not contain. -/
theorem graph_execute_result :
    ∀ fuel s, result_of (graph_execute fuel s) = result_of (_run_simple_loop fuel s) := by
  intro fuel
  induction fuel with
  | zero => intro s; rfl
  | succ n ih =>
    intro s
    rw [graph_execute, _run_simple_loop]
    unfold router
    by_cases h1 : s.agreed = true
    · simp [h1]
    · have h1' : s.agreed = false := by simpa using h1
      by_cases h2 : s.failure_reason.isSome = true
      · simp [h1', h2]
      · have h2' : s.failure_reason.isSome = false := by simpa using h2
        by_cases h3 : s.max_turns ≤ s.current_turn
        · simp [h1', h2', h3, result_of]
        · simp only [h1', h2', h3, if_false, if_true, Bool.false_or,
            Bool.false_eq_true]
          cases hw : s.whose_turn <;> simp [hw, ih]

/-- C5: once the FSM is terminal (AGREED or FAILED), `process_turn`,
`accept`, `reject`, `transition_to_agreed` and `transition_to_failed` all
return `False` and leave the state, the agreed price and the failure
reason unchanged; and from IDLE (without `start()`),
`transition_to_agreed` returns `False` and the state remains IDLE. -/
theorem fsm_terminal_noops (fsm fsm0 : NegotiationFSM) (p : ℚ)
    (op : Option ℚ) (r : Option String) (bb : Bool)
    (h : fsm.state = FSMState.agreed ∨ fsm.state = FSMState.failed)
    (h0 : fsm0.state = FSMState.idle) :
    (fsm.process_turn.1 = false ∧ fsm.process_turn.2 = fsm) ∧
    ((fsm.accept p).1 = false ∧ (fsm.accept p).2 = fsm) ∧
    ((fsm.reject bb).1 = false ∧ (fsm.reject bb).2 = fsm) ∧
    ((fsm.transition_to_agreed op).1 = false ∧
      (fsm.transition_to_agreed op).2 = fsm) ∧
    ((fsm.transition_to_failed r).1 = false ∧
      (fsm.transition_to_failed r).2 = fsm) ∧
    ((fsm0.transition_to_agreed op).1 = false ∧
      (fsm0.transition_to_agreed op).2.state = FSMState.idle) := by
  have hact : fsm.is_active = false := by
    rcases h with h | h <;> simp [NegotiationFSM.is_active, h]
  have hact0 : fsm0.is_active = false := by
    simp [NegotiationFSM.is_active, h0]
  refine ⟨?_, ?_, ?_, ?_, ?_, ?_⟩ <;>
    simp [NegotiationFSM.process_turn, NegotiationFSM.accept,
      NegotiationFSM.reject, NegotiationFSM.transition_to_agreed,
      NegotiationFSM.transition_to_failed, hact, hact0, h0]

theorem fsm_terminal_noops_witness :
    ((NegotiationFSM.mk .agreed ⟨3, 10, none, some 400, none⟩).state = FSMState.agreed ∨
      (NegotiationFSM.mk .agreed ⟨3, 10, none, some 400, none⟩).state = FSMState.failed) ∧
    (NegotiationFSM.init 10).state = FSMState.idle ∧
    ((NegotiationFSM.mk .agreed ⟨3, 10, none, some 400, none⟩).process_turn.1 = false ∧
      (NegotiationFSM.mk .agreed ⟨3, 10, none, some 400, none⟩).process_turn.2 =
        NegotiationFSM.mk .agreed ⟨3, 10, none, some 400, none⟩) :=
  ⟨Or.inl rfl, rfl,
    (fsm_terminal_noops (NegotiationFSM.mk .agreed ⟨3, 10, none, some 400, none⟩)
      (NegotiationFSM.init 10) 400 none none true (Or.inl rfl) rfl).1⟩

/-- C6: the claim says `transition_to_agreed` requires a price and
`transition_to_failed` records the supplied reason; the code accepts a
missing price (recording `None` and breaking its own `check_invariants`
assertion) and records `REJECTED_BY_BUYER` whatever reason is supplied. -/
theorem fsm_terminal_transitions_record_bug :
    ((((NegotiationFSM.init 10).start.2).transition_to_agreed none).1 = true ∧
      (((NegotiationFSM.init 10).start.2).transition_to_agreed none).2.state = FSMState.agreed ∧
      (((NegotiationFSM.init 10).start.2).transition_to_agreed none).2.context.agreed_price = none ∧
      (((NegotiationFSM.init 10).start.2).transition_to_agreed none).2.check_invariants = false) ∧
    ((((NegotiationFSM.init 10).start.2).transition_to_failed (some "max turns exceeded")).2.context.failure_reason =
      some FailureReason.rejected_by_buyer) := by
  decide

/-- C8: `validate_buyer_offer` yields `AboveMaximum` exactly when the price
exceeds the buyer maximum, else `PriceDecreased` exactly when progress is
required, a previous offer exists and the price dropped, else allowed;
`validate_seller_counter` is symmetric (`BelowMinimum` / `PriceIncreased`);
and with `sellerMinPrice = 350`, `validate_seller_counter(450, 400)` is
rejected as `PriceIncreased`. -/
theorem policy_validators_characterisation (pol : CoordinationPolicy)
    (price : ℚ) (prev : Option ℚ) :
    (pol.validate_buyer_offer price prev = ⟨false, some .above_maximum⟩ ↔
      pol.buyer_max_price < price) ∧
    (pol.validate_buyer_offer price prev = ⟨false, some .price_decreased⟩ ↔
      price ≤ pol.buyer_max_price ∧ pol.require_price_progress = true ∧
        ∃ p0, prev = some p0 ∧ price < p0) ∧
    (pol.validate_buyer_offer price prev = ⟨true, none⟩ ↔
      price ≤ pol.buyer_max_price ∧
        (pol.require_price_progress = true → ∀ p0, prev = some p0 → p0 ≤ price)) ∧
    (pol.validate_seller_counter price prev = ⟨false, some .below_minimum⟩ ↔
      price < pol.seller_min_price) ∧
    (pol.validate_seller_counter price prev = ⟨false, some .price_increased⟩ ↔
      pol.seller_min_price ≤ price ∧ pol.require_price_progress = true ∧
        ∃ p0, prev = some p0 ∧ p0 < price) ∧
    (pol.validate_seller_counter price prev = ⟨true, none⟩ ↔
      pol.seller_min_price ≤ price ∧
        (pol.require_price_progress = true → ∀ p0, prev = some p0 → price ≤ p0)) ∧
    (CoordinationPolicy.mk 450 350 true).validate_seller_counter 450 (some 400) =
      ⟨false, some .price_increased⟩ := by
  refine ⟨?_, ?_, ?_, ?_, ?_, ?_, ?_⟩
  · unfold CoordinationPolicy.validate_buyer_offer
    split_ifs with h1 h2 <;> cases prev <;> (simp_all; try (split_ifs <;> simp_all))
  · unfold CoordinationPolicy.validate_buyer_offer
    split_ifs with h1 h2 <;> cases prev <;> simp_all
  · unfold CoordinationPolicy.validate_buyer_offer
    split_ifs with h1 h2 <;> cases prev <;> simp_all
  · unfold CoordinationPolicy.validate_seller_counter
    split_ifs with h1 h2 <;> cases prev <;> (simp_all; try (split_ifs <;> simp_all))
  · unfold CoordinationPolicy.validate_seller_counter
    split_ifs with h1 h2 <;> cases prev <;> simp_all
  · unfold CoordinationPolicy.validate_seller_counter
    split_ifs with h1 h2 <;> cases prev <;> simp_all
  · unfold CoordinationPolicy.validate_seller_counter
    norm_num

theorem initial_first_step (bmax smin ask : ℚ) (mt : ℕ) (hmt : 1 ≤ mt) (n : ℕ) :
    _run_simple_loop (n + 1) (initial_state bmax smin ask mt) =
      _run_simple_loop n (buyer_node (initial_state bmax smin ask mt)) := by
  rw [_run_simple_loop]
  simp only [initial_state, Option.isSome_none, Bool.or_false]
  rw [if_neg (by simp), if_neg (by omega)]

/-- C9: for every (spec-valid, `maxTurns ≥ 1`) configuration, driving the
negotiation through the graph engine and through the direct sequential
loop returns the same result record: agreed flag, final price, turn count
and message log. -/
theorem run_negotiation_engine_agnostic (bmax smin ask : ℚ) (mt : ℕ)
    (hmt : 1 ≤ mt) :
    run_negotiation_graph bmax smin ask mt = run_negotiation bmax smin ask mt := by
  unfold run_negotiation_graph run_negotiation
  rw [graph_execute_result]
  have hm : loop_measure (buyer_node (initial_state bmax smin ask mt)) = 2 * mt := by
    have hfs := buyer_node_fields (initial_state bmax smin ask mt)
    unfold loop_measure
    rw [hfs.2.2.2.1, hfs.2.2.2.2.1, hfs.2.2.2.2.2]
    simp [initial_state]
  have hstable := _run_simple_loop_fuel_stable (2 * mt + 1) (loop_fuel mt)
    (buyer_node (initial_state bmax smin ask mt)) (by omega)
    (by unfold loop_fuel; omega)
  have hfuel : loop_fuel mt = (2 * mt + 1) + 1 := by unfold loop_fuel; ring
  rw [hstable]
  conv_rhs => rw [hfuel, initial_first_step bmax smin ask mt hmt]

theorem run_negotiation_engine_agnostic_witness :
    1 ≤ 10 ∧
      run_negotiation_graph 450 350 500 10 = run_negotiation 450 350 500 10 :=
  ⟨by norm_num, run_negotiation_engine_agnostic 450 350 500 10 (by norm_num)⟩

set_option linter.unusedVariables false in
/-- C1: for `maxTurns ≥ 1` and positive prices, the orchestration loop
terminates in a final state that is agreed or carries a failure reason,
and the reported turn count never exceeds `maxTurns`.  (The positivity
hypotheses are part of the claim; the property holds without using them.) -/
theorem run_negotiation_terminates (bmax smin ask : ℚ) (mt : ℕ)
    (hmt : 1 ≤ mt) (hb : 0 < bmax) (hs : 0 < smin) (ha : 0 < ask) :
    ((_run_simple_loop (loop_fuel mt) (initial_state bmax smin ask mt)).agreed = true ∨
      (_run_simple_loop (loop_fuel mt) (initial_state bmax smin ask mt)).failure_reason ≠ none) ∧
    (run_negotiation bmax smin ask mt).turns ≤ mt := by
  constructor
  · apply _run_simple_loop_breaks
    unfold loop_measure loop_fuel
    simp [initial_state]
  · have hinv := _run_simple_loop_invariant
      (fun s => s.current_turn ≤ s.max_turns ∧ s.max_turns = mt)
      (fun s hP hag hfr hlt hw => by
        have hfs := buyer_node_fields s
        exact ⟨by rw [hfs.2.2.2.1, hfs.2.2.2.2.1]; exact hP.1,
          by rw [hfs.2.2.2.1]; exact hP.2⟩)
      (fun s hP hag hfr hlt hw => by
        have hfs := seller_node_fields s
        refine ⟨?_, ?_⟩
        · rw [hfs.2.2.2.1, hfs.2.2.2.2.1]; omega
        · rw [hfs.2.2.2.1]; exact hP.2)
      (fun s hP => hP)
      (loop_fuel mt) (initial_state bmax smin ask mt)
      ⟨by simp [initial_state], by simp [initial_state]⟩
    unfold run_negotiation result_of
    dsimp only
    omega

theorem run_negotiation_terminates_witness :
    (1 ≤ 10 ∧ (0:ℚ) < 200 ∧ (0:ℚ) < 500 ∧ (0:ℚ) < 600) ∧
    ((_run_simple_loop (loop_fuel 10) (initial_state 200 500 600 10)).agreed = true ∨
      (_run_simple_loop (loop_fuel 10) (initial_state 200 500 600 10)).failure_reason ≠ none) ∧
    (run_negotiation 200 500 600 10).turns ≤ 10 :=
  ⟨⟨by norm_num, by norm_num, by norm_num, by norm_num⟩,
    run_negotiation_terminates 200 500 600 10 (by norm_num) (by norm_num)
      (by norm_num) (by norm_num)⟩

/-- C10: when the seller's asking price is already within the buyer's
budget, the buyer's very first action accepts it: the run ends agreed at
exactly the asking price, with zero completed rounds and a single
buyer-accept message. -/
theorem run_negotiation_accepts_asking (bmax smin ask : ℚ) (mt : ℕ)
    (hmt : 1 ≤ mt) (hask : ask ≤ bmax) :
    run_negotiation bmax smin ask mt =
      ⟨true, some ask, 0, [⟨0, Party.buyer, AgentResponse.accept ask⟩]⟩ := by
  unfold run_negotiation
  have hfuel : loop_fuel mt = (2 * mt + 1) + 1 := by unfold loop_fuel; ring
  rw [hfuel, initial_first_step bmax smin ask mt hmt]
  have hbn : buyer_node (initial_state bmax smin ask mt) =
      { buyer_max_price := bmax, seller_min_price := smin,
        seller_asking_price := ask, max_turns := mt, current_turn := 0,
        whose_turn := .seller, current_offer := ask,
        previous_buyer_offer := none, previous_seller_counter := none,
        agreed := true, final_price := some ask, failure_reason := none,
        messages := [⟨0, .buyer, .accept ask⟩] } := by
    unfold buyer_node buyer_strategy initial_state
    simp [hask]
  rw [hbn, _run_simple_loop]
  simp [result_of]

theorem run_negotiation_accepts_asking_witness :
    (1 ≤ 10 ∧ (350:ℚ) ≤ 400) ∧
    run_negotiation 400 300 350 10 =
      ⟨true, some 350, 0, [⟨0, Party.buyer, AgentResponse.accept 350⟩]⟩ :=
  ⟨⟨by norm_num, by norm_num⟩,
    run_negotiation_accepts_asking 400 300 350 10 (by norm_num) (by norm_num)⟩

set_option maxHeartbeats 1000000 in
/-- Evaluation of the spec's scenario 2 configuration
(`buyerMax=200, sellerMin=500, askingPrice=600, maxTurns=10`): the seller's
end-game guard (`turn ≥ maxTurns − 2` and `buyerOffer < 0.8·effectiveMin`)
fires on turn 8, so the run ends by seller rejection after 9 rounds. -/
theorem scenario2_eval :
    (run_negotiation 200 500 600 10).agreed = false ∧
    (run_negotiation 200 500 600 10).turns = 9 ∧
    (_run_simple_loop (loop_fuel 10) (initial_state 200 500 600 10)).failure_reason =
      some "Seller rejected" := by
  refine ⟨?_, ?_, ?_⟩ <;>
    norm_num [run_negotiation, result_of, loop_fuel, initial_state,
      _run_simple_loop, buyer_node, seller_node, buyer_strategy,
      seller_strategy, round2, round_eq, min_def, max_def]

/-- C7 (counterexample): on `buyerMax=200, sellerMin=500, askingPrice=600,
maxTurns=10` the code does not fail with MaxTurnsExceeded after 10 rounds,
refuting the claimed outcome. -/
theorem scenario2_claim_false :
    (run_negotiation 200 500 600 10).turns ≠ 10 ∧
    (_run_simple_loop (loop_fuel 10) (initial_state 200 500 600 10)).failure_reason ≠
      some "Max turns exceeded" := by
  refine ⟨?_, ?_⟩
  · rw [scenario2_eval.2.1]
    norm_num
  · rw [scenario2_eval.2.2]
    simp

/-- C7 (amended): running with `buyerMax=200, sellerMin=500,
`askingPrice=600, maxTurns=10` yields `agreed = false` with the failure
reason "Seller rejected" and `turnsTaken = 9`. -/
theorem scenario2_outcome :
    (run_negotiation 200 500 600 10).agreed = false ∧
    (run_negotiation 200 500 600 10).turns = 9 ∧
    (_run_simple_loop (loop_fuel 10) (initial_state 200 500 600 10)).failure_reason =
      some "Seller rejected" :=
  scenario2_eval

/-- The buyer accepts any current offer within budget. -/
theorem buyer_strategy_accept_of_le (co mp : ℚ) (t mt : ℕ) (po : Option ℚ)
    (h : co ≤ mp) : buyer_strategy co mp t mt po = .accept co := by
  unfold buyer_strategy
  rw [if_pos h]

/-- Above budget, the buyer emits an offer: either the full budget (final
turn) or the rounded, budget-clamped escalation. -/
theorem buyer_strategy_offer_cases (co mp : ℚ) (t mt : ℕ) (po : Option ℚ)
    (h : ¬ co ≤ mp) :
    buyer_strategy co mp t mt po = .offer mp ∨
    buyer_strategy co mp t mt po =
      .offer (round2 (min (match po with
        | none => mp * (60 / 100)
        | some q => q * (108 / 100)) mp)) := by
  unfold buyer_strategy
  rw [if_neg h]
  dsimp only
  split_ifs <;> [exact Or.inl rfl; exact Or.inr rfl]

/-- The seller accepts any buyer offer meeting the minimum. -/
theorem seller_strategy_accept_of_le (bo minp ap : ℚ) (t mt : ℕ)
    (pc : Option ℚ) (h : minp ≤ bo) :
    seller_strategy bo minp ap t mt pc = .accept bo := by
  unfold seller_strategy
  rw [if_pos h]

/-- Below the minimum, the seller either rejects (end-game guard) or
counters with the rounded, minimum-clamped concession. -/
theorem seller_strategy_counter_cases (bo minp ap : ℚ) (t mt : ℕ)
    (pc : Option ℚ) (h : ¬ minp ≤ bo) :
    seller_strategy bo minp ap t mt pc = .reject ∨
    seller_strategy bo minp ap t mt pc =
      .counter (round2 (max (match pc with
        | none => ap * (98 / 100)
        | some c => c - (c - bo) * (3 / 10)) minp)) bo := by
  unfold seller_strategy
  rw [if_neg h]
  dsimp only
  split_ifs <;> [exact Or.inl rfl; exact Or.inr rfl]

theorem buyer_node_of_offer (s : NegotiationState) (p : ℚ)
    (h : buyer_strategy s.current_offer s.buyer_max_price s.current_turn
      s.max_turns s.previous_buyer_offer = .offer p) :
    buyer_node s = { s with
      messages := s.messages ++ [⟨s.current_turn, .buyer, .offer p⟩]
      whose_turn := .seller
      previous_buyer_offer := some p } := by
  unfold buyer_node
  rw [h]

theorem buyer_node_of_accept (s : NegotiationState) (p : ℚ)
    (h : buyer_strategy s.current_offer s.buyer_max_price s.current_turn
      s.max_turns s.previous_buyer_offer = .accept p) :
    buyer_node s = { s with
      messages := s.messages ++ [⟨s.current_turn, .buyer, .accept p⟩]
      whose_turn := .seller
      agreed := true
      final_price := some p } := by
  unfold buyer_node
  rw [h]

theorem seller_node_of_accept (s : NegotiationState) (p : ℚ)
    (h : seller_strategy (s.previous_buyer_offer.getD s.seller_asking_price)
      s.seller_min_price s.seller_asking_price s.current_turn s.max_turns
      s.previous_seller_counter = .accept p) :
    seller_node s = { s with
      messages := s.messages ++ [⟨s.current_turn, .seller, .accept p⟩]
      whose_turn := .buyer
      current_turn := s.current_turn + 1
      agreed := true
      final_price := some p } := by
  unfold seller_node
  dsimp only
  rw [h]

theorem seller_node_of_reject (s : NegotiationState)
    (h : seller_strategy (s.previous_buyer_offer.getD s.seller_asking_price)
      s.seller_min_price s.seller_asking_price s.current_turn s.max_turns
      s.previous_seller_counter = .reject) :
    seller_node s = { s with
      messages := s.messages ++ [⟨s.current_turn, .seller, .reject⟩]
      whose_turn := .buyer
      current_turn := s.current_turn + 1
      failure_reason := some "Seller rejected" } := by
  unfold seller_node
  dsimp only
  rw [h]

theorem seller_node_of_counter (s : NegotiationState) (p q : ℚ)
    (h : seller_strategy (s.previous_buyer_offer.getD s.seller_asking_price)
      s.seller_min_price s.seller_asking_price s.current_turn s.max_turns
      s.previous_seller_counter = .counter p q) :
    seller_node s = { s with
      messages := s.messages ++ [⟨s.current_turn, .seller, .counter p q⟩]
      whose_turn := .buyer
      current_turn := s.current_turn + 1
      current_offer := p
      previous_seller_counter := some p } := by
  unfold seller_node
  dsimp only
  rw [h]

theorem range_inv_buyer (bmax smin : ℚ) (hbfix : round2 bmax = bmax)
    (s : NegotiationState) (hP : range_inv bmax smin s)
    (hag' : s.agreed = false) : range_inv bmax smin (buyer_node s) := by
  obtain ⟨hPb, hPs, hPag, hPco, hPpb, hPw⟩ := hP
  by_cases hco : s.current_offer ≤ s.buyer_max_price
  · rw [buyer_node_of_accept s _ (buyer_strategy_accept_of_le _ _ _ _ _ hco)]
    refine ⟨hPb, hPs, ?_, hPco, hPpb, fun _ => Or.inl rfl⟩
    intro _
    exact ⟨s.current_offer, rfl, hPco, hPb ▸ hco⟩
  · rcases buyer_strategy_offer_cases s.current_offer s.buyer_max_price
        s.current_turn s.max_turns s.previous_buyer_offer hco with hresp | hresp <;>
      rw [buyer_node_of_offer s _ hresp] <;>
      refine ⟨hPb, hPs, ?_, hPco, ?_, fun _ => Or.inr rfl⟩
    · intro hcontr
      simp only [hag'] at hcontr
      cases hcontr
    · intro q hq
      rw [← Option.some.inj hq, hPb]
    · intro hcontr
      simp only [hag'] at hcontr
      cases hcontr
    · intro q hq
      rw [← Option.some.inj hq]
      exact round2_le_of_le ((min_le_right _ _).trans (le_of_eq hPb)) hbfix

theorem range_inv_seller (bmax smin : ℚ) (hsfix : round2 smin = smin)
    (s : NegotiationState) (hP : range_inv bmax smin s)
    (hag' : s.agreed = false) (hw : s.whose_turn = Party.seller) :
    range_inv bmax smin (seller_node s) := by
  obtain ⟨hPb, hPs, hPag, hPco, hPpb, hPw⟩ := hP
  rcases hPw hw with hcontr | hsome
  · rw [hag'] at hcontr
    cases hcontr
  · obtain ⟨pb, hpb⟩ := Option.isSome_iff_exists.mp hsome
    have hgd : s.previous_buyer_offer.getD s.seller_asking_price = pb := by
      rw [hpb]
      rfl
    have hpble : pb ≤ bmax := hPpb pb hpb
    by_cases hacc : s.seller_min_price ≤ s.previous_buyer_offer.getD s.seller_asking_price
    · rw [seller_node_of_accept s _ (seller_strategy_accept_of_le _ _ _ _ _ _ hacc)]
      refine ⟨hPb, hPs, ?_, hPco, hPpb, ?_⟩
      · intro _
        refine ⟨s.previous_buyer_offer.getD s.seller_asking_price, rfl, hPs ▸ hacc, ?_⟩
        rw [hgd]
        exact hpble
      · intro hcontr
        cases hcontr
    · rcases seller_strategy_counter_cases
          (s.previous_buyer_offer.getD s.seller_asking_price) s.seller_min_price
          s.seller_asking_price s.current_turn s.max_turns
          s.previous_seller_counter hacc with hresp | hresp
      · rw [seller_node_of_reject s hresp]
        refine ⟨hPb, hPs, ?_, hPco, hPpb, ?_⟩
        · intro hcontr
          simp only [hag'] at hcontr
          cases hcontr
        · intro hcontr
          cases hcontr
      · rw [seller_node_of_counter s _ _ hresp]
        refine ⟨hPb, hPs, ?_, ?_, hPpb, ?_⟩
        · intro hcontr
          simp only [hag'] at hcontr
          cases hcontr
        · exact le_round2_of_le ((le_of_eq hPs.symm).trans (le_max_right _ _)) hsfix
        · intro hcontr
          cases hcontr

set_option linter.unusedVariables false in
/-- C2 (amended): with a non-empty range (`sellerMin ≤ buyerMax`), an
asking price at or above the seller minimum, and whole-cent bounds
(`round2`-fixed, as in every spec scenario), any agreed outcome satisfies
`sellerMin ≤ finalPrice ≤ buyerMax`. -/
theorem agreed_price_in_range (bmax smin ask : ℚ) (mt : ℕ)
    (hr : smin ≤ bmax) (ha : smin ≤ ask)
    (hbfix : round2 bmax = bmax) (hsfix : round2 smin = smin) :
    ∀ p, (run_negotiation bmax smin ask mt).agreed = true →
      (run_negotiation bmax smin ask mt).final_price = some p →
      smin ≤ p ∧ p ≤ bmax := by
  intro p hag hfp
  have hinv := _run_simple_loop_invariant (range_inv bmax smin)
    (fun s hP hag' _ _ _ => range_inv_buyer bmax smin hbfix s hP hag')
    (fun s hP hag' _ _ hw => range_inv_seller bmax smin hsfix s hP hag' hw)
    (fun s hP => hP)
    (loop_fuel mt) (initial_state bmax smin ask mt)
    (by
      refine ⟨rfl, rfl, ?_, ha, ?_, ?_⟩
      · intro hcontr
        simp [initial_state] at hcontr
      · intro q hq
        simp [initial_state] at hq
      · intro hcontr
        simp [initial_state] at hcontr)
  unfold run_negotiation result_of at hag hfp
  dsimp only at hag hfp
  obtain ⟨-, -, hAg, -, -, -⟩ := hinv
  obtain ⟨q, hq, h1, h2⟩ := hAg hag
  rw [hfp] at hq
  rw [Option.some.inj hq]
  exact ⟨h1, h2⟩

theorem agreed_price_in_range_witness :
    ((350:ℚ) ≤ 450 ∧ (350:ℚ) ≤ 500 ∧
      round2 450 = 450 ∧ round2 350 = 350) ∧
    (∀ p, (run_negotiation 450 350 500 10).agreed = true →
      (run_negotiation 450 350 500 10).final_price = some p →
      (350:ℚ) ≤ p ∧ p ≤ 450) :=
  ⟨⟨by norm_num, by norm_num, by norm_num [round2, round_eq],
      by norm_num [round2, round_eq]⟩,
    agreed_price_in_range 450 350 500 10 (by norm_num) (by norm_num)
      (by norm_num [round2, round_eq]) (by norm_num [round2, round_eq])⟩

set_option maxHeartbeats 1000000 in
/-- C2 (counterexample): with `buyerMax=400 ≥ sellerMin=350` but an asking
price of `100` below the seller minimum, the buyer accepts immediately and
the agreed price `100` falls outside `[sellerMin, buyerMax]`. -/
theorem agreed_price_in_range_counterexample :
    (350:ℚ) ≤ 400 ∧
    (run_negotiation 400 350 100 10).agreed = true ∧
    (run_negotiation 400 350 100 10).final_price = some 100 ∧
    ¬ ((350:ℚ) ≤ 100) := by
  refine ⟨by norm_num, ?_, ?_, by norm_num⟩ <;>
    norm_num [run_negotiation, result_of, loop_fuel, initial_state,
      _run_simple_loop, buyer_node, seller_node, buyer_strategy,
      seller_strategy, round2, round_eq, min_def, max_def]

theorem no_zopa_inv_buyer (bmax smin : ℚ) (s : NegotiationState)
    (hP : no_zopa_inv bmax smin s) : no_zopa_inv bmax smin (buyer_node s) := by
  obtain ⟨hPb, hPs, hPag, hPco, hPpb, hPw⟩ := hP
  have hco : ¬ s.current_offer ≤ s.buyer_max_price := by
    rw [hPb]
    exact not_le_of_lt hPco
  rcases buyer_strategy_offer_cases s.current_offer s.buyer_max_price
      s.current_turn s.max_turns s.previous_buyer_offer hco with hresp | hresp <;>
    rw [buyer_node_of_offer s _ hresp] <;>
    refine ⟨hPb, hPs, hPag, hPco, ?_, fun _ => rfl⟩
  · intro q hq
    rw [← Option.some.inj hq, hPb]
    linarith
  · intro q hq
    rw [← Option.some.inj hq]
    calc round2 (min (match s.previous_buyer_offer with
          | none => s.buyer_max_price * (60 / 100)
          | some q => q * (108 / 100)) s.buyer_max_price)
        ≤ min (match s.previous_buyer_offer with
          | none => s.buyer_max_price * (60 / 100)
          | some q => q * (108 / 100)) s.buyer_max_price + 1 / 200 :=
          round2_le_add_half_cent _
      _ ≤ s.buyer_max_price + 1 / 200 := by
          have := min_le_right (match s.previous_buyer_offer with
            | none => s.buyer_max_price * (60 / 100)
            | some q => q * (108 / 100)) s.buyer_max_price
          linarith
      _ = bmax + 1 / 200 := by rw [hPb]

theorem no_zopa_inv_seller (bmax smin : ℚ) (hgap : bmax + 1 / 200 < smin)
    (s : NegotiationState) (hP : no_zopa_inv bmax smin s)
    (hw : s.whose_turn = Party.seller) :
    no_zopa_inv bmax smin (seller_node s) := by
  obtain ⟨hPb, hPs, hPag, hPco, hPpb, hPw⟩ := hP
  obtain ⟨pb, hpb⟩ := Option.isSome_iff_exists.mp (hPw hw)
  have hgd : s.previous_buyer_offer.getD s.seller_asking_price = pb := by
    rw [hpb]
    rfl
  have hpble : pb ≤ bmax + 1 / 200 := hPpb pb hpb
  have hacc : ¬ s.seller_min_price ≤ s.previous_buyer_offer.getD s.seller_asking_price := by
    rw [hgd, hPs]
    linarith
  rcases seller_strategy_counter_cases
      (s.previous_buyer_offer.getD s.seller_asking_price) s.seller_min_price
      s.seller_asking_price s.current_turn s.max_turns
      s.previous_seller_counter hacc with hresp | hresp
  · rw [seller_node_of_reject s hresp]
    exact ⟨hPb, hPs, hPag, hPco, hPpb, fun hcontr => by cases hcontr⟩
  · rw [seller_node_of_counter s _ _ hresp]
    refine ⟨hPb, hPs, hPag, ?_, hPpb, fun hcontr => by cases hcontr⟩
    dsimp only
    have h1 := sub_half_cent_le_round2 (max (match s.previous_seller_counter with
      | none => s.seller_asking_price * (98 / 100)
      | some c => c - (c - s.previous_buyer_offer.getD s.seller_asking_price) * (3 / 10))
      s.seller_min_price)
    have h2 := le_max_right (match s.previous_seller_counter with
      | none => s.seller_asking_price * (98 / 100)
      | some c => c - (c - s.previous_buyer_offer.getD s.seller_asking_price) * (3 / 10))
      s.seller_min_price
    linarith [hPs.le, hPs.ge]

/-- C3 (amended): when the seller minimum exceeds the buyer maximum by
more than the half-cent rounding slack and the asking price lies above the
buyer maximum, the negotiation never reaches an agreed outcome, for any
asking price and any number of allowed turns. -/
theorem no_zopa_never_agreed (bmax smin ask : ℚ) (mt : ℕ)
    (hgap : bmax + 1 / 200 < smin) (hask : bmax < ask) :
    (run_negotiation bmax smin ask mt).agreed = false := by
  have hinv := _run_simple_loop_invariant (no_zopa_inv bmax smin)
    (fun s hP _ _ _ _ => no_zopa_inv_buyer bmax smin s hP)
    (fun s hP _ _ _ hw => no_zopa_inv_seller bmax smin hgap s hP hw)
    (fun s hP => hP)
    (loop_fuel mt) (initial_state bmax smin ask mt)
    (by
      refine ⟨rfl, rfl, rfl, hask, ?_, ?_⟩
      · intro q hq
        simp [initial_state] at hq
      · intro hcontr
        simp [initial_state] at hcontr)
  obtain ⟨-, -, hAg, -, -, -⟩ := hinv
  unfold run_negotiation result_of
  exact hAg

set_option maxHeartbeats 1000000 in
/-- C3 (counterexample): with `sellerMin=500 > buyerMax=200` but an asking
price of `150` at or below the buyer maximum, the buyer accepts the asking
price at once, so the run ends agreed despite the empty range. -/
theorem no_zopa_never_agreed_counterexample :
    (200:ℚ) < 500 ∧ (run_negotiation 200 500 150 10).agreed = true := by
  refine ⟨by norm_num, ?_⟩
  norm_num [run_negotiation, result_of, loop_fuel, initial_state,
    _run_simple_loop, buyer_node, seller_node, buyer_strategy,
    seller_strategy, round2, round_eq, min_def, max_def]

theorem no_zopa_never_agreed_witness :
    ((200:ℚ) + 1 / 200 < 500 ∧ (200:ℚ) < 600) ∧
    (run_negotiation 200 500 600 10).agreed = false :=
  ⟨⟨by norm_num, by norm_num⟩,
    no_zopa_never_agreed 200 500 600 10 (by norm_num) (by norm_num)⟩

theorem chain'_concat_of_getLast {R : ℚ → ℚ → Prop} (l : List ℚ) (p : ℚ)
    (hl : List.Chain' R l) (h : ∀ x, l.getLast? = some x → R x p) :
    List.Chain' R (l ++ [p]) := by
  rw [List.chain'_append]
  refine ⟨hl, List.chain'_singleton p, ?_⟩
  intro x hx y hy
  simp only [List.head?_cons, Option.mem_def, Option.some.injEq] at hy
  subst hy
  exact h x hx

theorem buyer_offer_prices_append (msgs : List LogEntry) (m : LogEntry) :
    buyer_offer_prices (msgs ++ [m]) =
      buyer_offer_prices msgs ++ buyer_offer_prices [m] := by
  unfold buyer_offer_prices
  rw [List.filterMap_append]

theorem seller_counter_prices_append (msgs : List LogEntry) (m : LogEntry) :
    seller_counter_prices (msgs ++ [m]) =
      seller_counter_prices msgs ++ seller_counter_prices [m] := by
  unfold seller_counter_prices
  rw [List.filterMap_append]

theorem buyer_offer_prices_single_offer (t : ℕ) (p : ℚ) :
    buyer_offer_prices [⟨t, Party.buyer, .offer p⟩] = [p] := rfl

theorem buyer_offer_prices_single_accept (t : ℕ) (p : ℚ) :
    buyer_offer_prices [⟨t, Party.buyer, .accept p⟩] = [] := rfl

theorem buyer_offer_prices_single_seller (t : ℕ) (r : AgentResponse) :
    buyer_offer_prices [⟨t, Party.seller, r⟩] = [] := by
  unfold buyer_offer_prices
  cases r <;> rfl

theorem seller_counter_prices_single_counter (t : ℕ) (p q : ℚ) :
    seller_counter_prices [⟨t, Party.seller, .counter p q⟩] = [p] := rfl

theorem seller_counter_prices_single_accept (t : ℕ) (p : ℚ) :
    seller_counter_prices [⟨t, Party.seller, .accept p⟩] = [] := rfl

theorem seller_counter_prices_single_reject (t : ℕ) :
    seller_counter_prices [⟨t, Party.seller, .reject⟩] = [] := rfl

theorem seller_counter_prices_single_buyer (t : ℕ) (r : AgentResponse) :
    seller_counter_prices [⟨t, Party.buyer, r⟩] = [] := by
  unfold seller_counter_prices
  cases r <;> rfl

theorem monotone_inv_buyer (bmax smin : ℚ) (hb : 0 < bmax)
    (hbfix : round2 bmax = bmax) (s : NegotiationState)
    (hP : monotone_inv bmax smin s) : monotone_inv bmax smin (buyer_node s) := by
  obtain ⟨hPb, hPs, hCb, hCs, hPrev, hNone, hPrevS, hNoneS⟩ := hP
  have hb' : 0 < s.buyer_max_price := by rw [hPb]; exact hb
  have hfix' : round2 s.buyer_max_price = s.buyer_max_price := by
    rw [hPb]; exact hbfix
  by_cases hco : s.current_offer ≤ s.buyer_max_price
  · rw [buyer_node_of_accept s _ (buyer_strategy_accept_of_le _ _ _ _ _ hco)]
    unfold monotone_inv
    dsimp only
    rw [buyer_offer_prices_append, buyer_offer_prices_single_accept,
      seller_counter_prices_append, seller_counter_prices_single_buyer,
      List.append_nil, List.append_nil]
    exact ⟨hPb, hPs, hCb, hCs, hPrev, hNone, hPrevS, hNoneS⟩
  · have hvex : ∃ v, buyer_strategy s.current_offer s.buyer_max_price
        s.current_turn s.max_turns s.previous_buyer_offer = .offer v ∧
        0 ≤ v ∧ v ≤ bmax ∧ round2 v = v ∧
        (∀ p, s.previous_buyer_offer = some p → p ≤ v) := by
      rcases buyer_strategy_offer_cases s.current_offer s.buyer_max_price
          s.current_turn s.max_turns s.previous_buyer_offer hco with hresp | hresp
      · refine ⟨s.buyer_max_price, hresp, hb'.le, le_of_eq hPb, hfix', ?_⟩
        intro p hp
        rw [← hPb] at *
        exact (hPrev p hp).2.1
      · cases hprev : s.previous_buyer_offer with
        | none =>
          simp only [hprev] at hresp
          refine ⟨_, hresp, ?_, ?_, round2_round2 _, ?_⟩
          · exact round2_nonneg (le_min
              (mul_nonneg hb'.le (by norm_num)) hb'.le)
          · rw [← hPb]
            exact round2_le_of_le (min_le_right _ _) hfix'
          · intro p hp
            cases hp
        | some p =>
          simp only [hprev] at hresp
          obtain ⟨hp0, hpbm, hpfix, -⟩ := hPrev p hprev
          have hpbm' : p ≤ s.buyer_max_price := by rw [hPb]; exact hpbm
          have hpv : p ≤ round2 (min (p * (108 / 100)) s.buyer_max_price) := by
            by_cases hc : p * (108 / 100) ≤ s.buyer_max_price
            · rw [min_eq_left hc]
              exact le_round2_of_le (by linarith) hpfix
            · rw [min_eq_right (le_of_not_le hc), hfix']
              exact hpbm'
          refine ⟨_, hresp, le_trans hp0 hpv, ?_, round2_round2 _, ?_⟩
          · rw [← hPb]
            exact round2_le_of_le (min_le_right _ _) hfix'
          · intro q hq
            rw [← Option.some.inj hq]
            exact hpv
    obtain ⟨v, hresp, hv0, hvb, hvfix, hpv⟩ := hvex
    rw [buyer_node_of_offer s _ hresp]
    unfold monotone_inv
    dsimp only
    rw [buyer_offer_prices_append, buyer_offer_prices_single_offer,
      seller_counter_prices_append, seller_counter_prices_single_buyer,
      List.append_nil]
    refine ⟨hPb, hPs, ?_, hCs, ?_, ?_, hPrevS, hNoneS⟩
    · apply chain'_concat_of_getLast _ _ hCb
      intro x hx
      cases hprev : s.previous_buyer_offer with
      | none =>
        rw [hNone hprev] at hx
        cases hx
      | some p =>
        obtain ⟨-, -, -, hlast⟩ := hPrev p hprev
        rw [hlast] at hx
        exact (Option.some.inj hx) ▸ hpv p hprev
    · intro q hq
      rw [← Option.some.inj hq]
      exact ⟨hv0, hvb, hvfix, List.getLast?_concat _⟩
    · intro hcontr
      exact Option.noConfusion hcontr

theorem monotone_inv_seller (bmax smin : ℚ) (hsfix : round2 smin = smin)
    (s : NegotiationState) (hP : monotone_inv bmax smin s) :
    monotone_inv bmax smin (seller_node s) := by
  obtain ⟨hPb, hPs, hCb, hCs, hPrev, hNone, hPrevS, hNoneS⟩ := hP
  have hfix' : round2 s.seller_min_price = s.seller_min_price := by
    rw [hPs]; exact hsfix
  by_cases hacc : s.seller_min_price ≤ s.previous_buyer_offer.getD s.seller_asking_price
  · rw [seller_node_of_accept s _ (seller_strategy_accept_of_le _ _ _ _ _ _ hacc)]
    unfold monotone_inv
    dsimp only
    rw [buyer_offer_prices_append, buyer_offer_prices_single_seller,
      seller_counter_prices_append, seller_counter_prices_single_accept,
      List.append_nil, List.append_nil]
    exact ⟨hPb, hPs, hCb, hCs, hPrev, hNone, hPrevS, hNoneS⟩
  · rcases seller_strategy_counter_cases
        (s.previous_buyer_offer.getD s.seller_asking_price) s.seller_min_price
        s.seller_asking_price s.current_turn s.max_turns
        s.previous_seller_counter hacc with hresp | hresp
    · rw [seller_node_of_reject s hresp]
      unfold monotone_inv
      dsimp only
      rw [buyer_offer_prices_append, buyer_offer_prices_single_seller,
        seller_counter_prices_append, seller_counter_prices_single_reject,
        List.append_nil, List.append_nil]
      exact ⟨hPb, hPs, hCb, hCs, hPrev, hNone, hPrevS, hNoneS⟩
    · have hvex : ∃ v, seller_strategy
          (s.previous_buyer_offer.getD s.seller_asking_price)
          s.seller_min_price s.seller_asking_price s.current_turn s.max_turns
          s.previous_seller_counter =
            .counter v (s.previous_buyer_offer.getD s.seller_asking_price) ∧
          smin ≤ v ∧ round2 v = v ∧
          (∀ c, s.previous_seller_counter = some c → v ≤ c) := by
        cases hprevS : s.previous_seller_counter with
        | none =>
          simp only [hprevS] at hresp
          refine ⟨_, hresp, ?_, round2_round2 _, ?_⟩
          · rw [← hPs]
            exact le_round2_of_le (le_max_right _ _) hfix'
          · intro c hc
            cases hc
        | some c =>
          simp only [hprevS] at hresp
          obtain ⟨hcs, hcfix, -⟩ := hPrevS c hprevS
          have hcs' : s.seller_min_price ≤ c := by rw [hPs]; exact hcs
          have hbo : s.previous_buyer_offer.getD s.seller_asking_price <
              s.seller_min_price := lt_of_not_le hacc
          refine ⟨_, hresp, ?_, round2_round2 _, ?_⟩
          · rw [← hPs]
            exact le_round2_of_le (le_max_right _ _) hfix'
          · intro c' hc'
            rw [← Option.some.inj hc']
            have hY : c - (c - s.previous_buyer_offer.getD s.seller_asking_price)
                * (3 / 10) ≤ c := by linarith
            exact round2_le_of_le (max_le hY hcs') hcfix
      obtain ⟨v, hresp', hvs, hvfix, hvc⟩ := hvex
      rw [seller_node_of_counter s _ _ hresp']
      unfold monotone_inv
      dsimp only
      rw [buyer_offer_prices_append, buyer_offer_prices_single_seller,
        seller_counter_prices_append, seller_counter_prices_single_counter,
        List.append_nil]
      refine ⟨hPb, hPs, hCb, ?_, hPrev, hNone, ?_, ?_⟩
      · apply chain'_concat_of_getLast _ _ hCs
        intro x hx
        cases hprevS : s.previous_seller_counter with
        | none =>
          rw [hNoneS hprevS] at hx
          cases hx
        | some c =>
          obtain ⟨-, -, hlast⟩ := hPrevS c hprevS
          rw [hlast] at hx
          exact (Option.some.inj hx) ▸ hvc c hprevS
      · intro c' hc'
        rw [← Option.some.inj hc']
        exact ⟨hvs, hvfix, List.getLast?_concat _⟩
      · intro hcontr
        exact Option.noConfusion hcontr

set_option linter.unusedVariables false in
/-- C4 (amended): with positive prices and whole-cent `buyerMaxPrice` and
`sellerMinPrice` (fixed by rounding to 2 decimals), the prices in the
buyer's successive offer messages of a run are non-decreasing and the
prices in the seller's successive counter messages are non-increasing. -/
theorem concession_monotone (bmax smin ask : ℚ) (mt : ℕ)
    (hb : 0 < bmax) (hs : 0 < smin) (ha : 0 < ask)
    (hbfix : round2 bmax = bmax) (hsfix : round2 smin = smin) :
    List.Chain' (· ≤ ·)
      (buyer_offer_prices (run_negotiation bmax smin ask mt).messages) ∧
    List.Chain' (· ≥ ·)
      (seller_counter_prices (run_negotiation bmax smin ask mt).messages) := by
  have hinv := _run_simple_loop_invariant (monotone_inv bmax smin)
    (fun s hP _ _ _ _ => monotone_inv_buyer bmax smin hb hbfix s hP)
    (fun s hP _ _ _ _ => monotone_inv_seller bmax smin hsfix s hP)
    (fun s hP => hP)
    (loop_fuel mt) (initial_state bmax smin ask mt)
    (by
      refine ⟨rfl, rfl, List.chain'_nil, List.chain'_nil, ?_, fun _ => rfl, ?_, fun _ => rfl⟩
      · intro p hp
        cases hp
      · intro c hc
        cases hc)
  obtain ⟨-, -, h1, h2, -, -, -, -⟩ := hinv
  unfold run_negotiation result_of
  exact ⟨h1, h2⟩

theorem concession_monotone_witness :
    ((0:ℚ) < 450 ∧ (0:ℚ) < 350 ∧ (0:ℚ) < 500 ∧
      round2 450 = 450 ∧ round2 350 = 350) ∧
    List.Chain' (· ≤ ·)
      (buyer_offer_prices (run_negotiation 450 350 500 10).messages) ∧
    List.Chain' (· ≥ ·)
      (seller_counter_prices (run_negotiation 450 350 500 10).messages) :=
  ⟨⟨by norm_num, by norm_num, by norm_num, by norm_num [round2, round_eq],
      by norm_num [round2, round_eq]⟩,
    concession_monotone 450 350 500 10 (by norm_num) (by norm_num) (by norm_num)
      (by norm_num [round2, round_eq]) (by norm_num [round2, round_eq])⟩

set_option maxHeartbeats 1000000 in
/-- C4 (counterexample): with the (positive, non-whole-cent) budget
`buyerMax = 129.996`, `sellerMin = 140`, `asking = 600`, `maxTurns = 9`,
the buyer's final-turn branch emits `offer(maxPrice) = 129.996` right
after an offer of `130.00` (the rounding of the clamped escalation), so
the buyer's offer prices are not non-decreasing. -/
theorem concession_monotone_counterexample :
    buyer_offer_prices (run_negotiation (129996/1000) 140 600 9).messages =
      [78, 2106/25, 4549/50, 4913/50, 2653/25, 11461/100, 6189/50, 130, 32499/250] ∧
    ¬ List.Chain' (· ≤ ·)
      (buyer_offer_prices (run_negotiation (129996/1000) 140 600 9).messages) := by
  have heval : buyer_offer_prices (run_negotiation (129996/1000) 140 600 9).messages =
      [78, 2106/25, 4549/50, 4913/50, 2653/25, 11461/100, 6189/50, 130, 32499/250] := by
    norm_num [run_negotiation, result_of, loop_fuel, initial_state,
      _run_simple_loop, buyer_node, seller_node, buyer_strategy,
      seller_strategy, round2, round_eq, min_def, max_def,
      buyer_offer_prices, List.filterMap]
  refine ⟨heval, ?_⟩
  rw [heval]
  intro hchain
  have h130 := List.chain'_iff_get.mp hchain 7 (by norm_num)
  norm_num at h130
